import Mathlib

/-!
Verification of the HTML documentation generator (`src/documenters/HtmlDocumenter.ts`
and `src/html/HtmlEmitter.ts`) against its natural-language specification.

The TypeScript sources are shallowly embedded below: the data model of API items
and doc-comment nodes is translated to inductive types, the pure node-building
functions to Lean functions, the throwing code paths to `Except`, and the
side-effecting page traversal to a function returning the list of written pages.
-/

namespace ApiDoc

/-! ### External data model: `ApiItemKind` and `ReleaseTag`

The discriminants of `@microsoft/api-extractor-model`.  Constructor names match
the string values of the TypeScript `ApiItemKind` enum. -/

inductive ApiItemKind where
  | CallSignature
  | Class
  | Constructor
  | ConstructSignature
  | EntryPoint
  | Enum
  | EnumMember
  | Function
  | IndexSignature
  | Interface
  | Method
  | MethodSignature
  | Model
  | Namespace
  | Package
  | Property
  | PropertySignature
  | TypeAlias
  | Variable
  | None
deriving DecidableEq, Repr

/-- The string value of the TypeScript `ApiItemKind` enum member
(used by the `'Unsupported API item kind: ' + apiItem.kind` error messages). -/
def ApiItemKind.toStringValue : ApiItemKind → String
  | .CallSignature => "CallSignature"
  | .Class => "Class"
  | .Constructor => "Constructor"
  | .ConstructSignature => "ConstructSignature"
  | .EntryPoint => "EntryPoint"
  | .Enum => "Enum"
  | .EnumMember => "EnumMember"
  | .Function => "Function"
  | .IndexSignature => "IndexSignature"
  | .Interface => "Interface"
  | .Method => "Method"
  | .MethodSignature => "MethodSignature"
  | .Model => "Model"
  | .Namespace => "Namespace"
  | .Package => "Package"
  | .Property => "Property"
  | .PropertySignature => "PropertySignature"
  | .TypeAlias => "TypeAlias"
  | .Variable => "Variable"
  | .None => "None"

/-- Whether `ApiParameterListMixin.isBaseClassOf` holds for items of this kind.
In `api-extractor-model` the mixin is applied exactly to the classes
`ApiCallSignature`, `ApiConstructor`, `ApiConstructSignature`, `ApiFunction`,
`ApiIndexSignature`, `ApiMethod` and `ApiMethodSignature`, so membership in the
mixin is determined by the kind. -/
def ApiItemKind.isParameterListKind : ApiItemKind → Bool
  | .CallSignature | .Constructor | .ConstructSignature | .Function
  | .IndexSignature | .Method | .MethodSignature => true
  | _ => false

/-- `ReleaseTag` of `@microsoft/api-extractor-model`. -/
inductive ReleaseTag where
  | None
  | Internal
  | Alpha
  | Beta
  | Public
deriving DecidableEq, Repr

/-! ### External data model: doc-comment AST (`@microsoft/tsdoc`)

The renderer in `HtmlDocumenter._createDocNodes` switches on `node.kind`; each
kind of `DocNode` object corresponds to one constructor here.  Beyond the five
kinds with a rendering rule, we include three of the remaining tsdoc kinds
(`ErrorText`, `InlineTag`, `BlockTag`) to exercise the `default` branch. -/

inductive DocNode where
  | Paragraph (nodes : List DocNode)
  | SoftBreak
  | CodeSpan (code : String)
  /-- `DocLinkTag`: `linkText` and `urlDestination` are optional strings;
  a link without `urlDestination` carries only a code destination. -/
  | LinkTag (linkText : Option String) (urlDestination : Option String)
  | PlainText (text : String)
  | ErrorText (text : String)
  | InlineTag (tagName : String)
  | BlockTag (tagName : String)

/-- The `DocNodeKind` string value carried by `node.kind`. -/
def DocNode.kindStr : DocNode → String
  | .Paragraph _ => "Paragraph"
  | .SoftBreak => "SoftBreak"
  | .CodeSpan _ => "CodeSpan"
  | .LinkTag _ _ => "LinkTag"
  | .PlainText _ => "PlainText"
  | .ErrorText _ => "ErrorText"
  | .InlineTag _ => "InlineTag"
  | .BlockTag _ => "BlockTag"

/-! ### `src/html/HtmlEmitter.ts` -/

/-- `HtmlNode` of `HtmlEmitter.ts`: `{ type, attributes?, content? }` where
`content` is either a string (a *text* node), an array (a *block* node) or
absent (a *void* node).  The optional `attributes` object is modelled as an
association list (empty list = no attributes). -/
inductive HtmlNode where
  | text (type : String) (attributes : List (String × String)) (s : String)
  | block (type : String) (attributes : List (String × String)) (children : List HtmlNode)
  | void (type : String) (attributes : List (String × String))

namespace HtmlNode

/-- The `type` field of a node. -/
def typeName : HtmlNode → String
  | .text t _ _ => t
  | .block t _ _ => t
  | .void t _ => t

/-- JavaScript `node.content.length` for a block node (the number of children);
for a text node the string length, for a void node (content `undefined`)
there is no `.length`, the translation uses `0`. -/
def contentLength : HtmlNode → Nat
  | .text _ _ s => s.length
  | .block _ _ cs => cs.length
  | .void _ _ => 0

end HtmlNode

/-- The value passed for one of the untyped `arg1?`/`arg2?` parameters of
`tag`: at the call sites either a string or an array of nodes. -/
inductive TagArg where
  | str (s : String)
  | nodes (ns : List HtmlNode)

/-- JavaScript truthiness of an optional `tag` argument: `undefined` and the
empty string are falsy, every other string and every array is truthy. -/
def jsTruthyArg : Option TagArg → Bool
  | none => false
  | some (.str s) => !(s == "")
  | some (.nodes _) => true

/-- The `className` interpretation of an argument in the `arg2`-truthy branch
of `tag`.  (The call sites only ever pass a string in this position.) -/
def asClassName : Option TagArg → Option String
  | some (.str s) => some s
  | _ => none

/-- `_tag(type, className, content)` of `HtmlEmitter.ts`: sets the `class`
attribute when `className` is truthy (in JavaScript the empty string is
falsy), and builds a text, block or void node from `content`. -/
def tagCore (type : String) (className : Option String) (content : Option TagArg) : HtmlNode :=
  let attrs : List (String × String) :=
    match className with
    | some c => if c == "" then [] else [("class", c)]
    | none => []
  match content with
  | none => .void type attrs
  | some (.str s) => .text type attrs s
  | some (.nodes ns) => .block type attrs ns

/-- `tag(type, arg1?, arg2?)` of `HtmlEmitter.ts`: `if (arg2)` dispatches on
the truthiness of the *third* argument. -/
def tag (type : String) (arg1 arg2 : Option TagArg) : HtmlNode :=
  if jsTruthyArg arg2 then tagCore type (asClassName arg1) arg2
  else tagCore type none arg1

/-- `table(headings)` of `HtmlEmitter.ts`: a `table` block containing a
`thead` with one `th` per heading. -/
def table (headings : List String) : HtmlNode :=
  tag "table" (some (.nodes [
    tag "thead" (some (.nodes [
      tag "tr" (some (.nodes (headings.map fun h => tag "th" (some (.str h)) none))) none
    ])) none
  ])) none

/-- `tr(cells)` of `HtmlEmitter.ts`: plain strings become text `td` cells,
nodes are wrapped in a single-child `td`. -/
def tr (cells : List (String ⊕ HtmlNode)) : HtmlNode :=
  tag "tr" (some (.nodes (cells.map fun c =>
    match c with
    | .inl s => tag "td" (some (.str s)) none
    | .inr n => tag "td" (some (.nodes [n])) none))) none

/-- Modelled from the spec (§4.1): the helper `a(text, href, className?)` is
imported by `HtmlDocumenter.ts` from `HtmlEmitter.ts` but its definition is
not among the provided sources; per the spec it builds "an anchor node". -/
def a (text href : String) (className : Option String) : HtmlNode :=
  .text "a"
    (("href", href) :: (match className with
      | some c => [("class", c)]
      | none => []))
    text

/-- Callers of `table` push additional row nodes onto the (mutable) `content`
array of the returned block node; this models a sequence of such pushes. -/
def pushRows (t : HtmlNode) (rows : List HtmlNode) : HtmlNode :=
  match t with
  | .block ty at' cs => .block ty at' (cs ++ rows)
  | other => other

/-! ### Missing repository code, modelled from the spec -/

/-- ASCII lower-casing of one character. -/
def lowerChar (c : Char) : Char :=
  if 'A' ≤ c ∧ c ≤ 'Z' then Char.ofNat (c.toNat + 32) else c

/-- Whether a character is kept by the filename sanitizer (letters, digits,
`_`, `-` and `.`). -/
def isSafeFilenameChar (c : Char) : Bool :=
  ('a' ≤ c && c ≤ 'z') || ('A' ≤ c && c ≤ 'Z') || ('0' ≤ c && c ≤ '9') ||
    c == '_' || c == '-' || c == '.'

/-- Modelled from the spec (§4.4): `Utilities.getSafeFilenameForName` lives in
`src/utils/Utilities.ts`, which is not among the provided sources; the spec
calls it "a filesystem-safe form of its display name".  Unsafe characters are
replaced by `_` and the result is lower-cased. -/
def getSafeFilenameForName (name : String) : String :=
  ⟨name.data.map fun c => lowerChar (if isSafeFilenameChar c then c else '_')⟩

/-- Splits a character list at the first `/`, if any. -/
def splitFirstSlash : List Char → Option (List Char × List Char)
  | [] => none
  | '/' :: rest => some ([], rest)
  | c :: rest => (splitFirstSlash rest).map fun p => (c :: p.1, p.2)

/-- Modelled from the spec (§4.4): `PackageName.getUnscopedName` is an external
collaborator (`@rushstack/node-core-library`); the spec describes it as
"stripping any publisher/organization scope prefix", i.e. `@scope/name ↦ name`. -/
def getUnscopedName (name : String) : String :=
  match name.data with
  | '@' :: _ =>
    match splitFirstSlash name.data with
    | some (_, rest) => ⟨rest⟩
    | none => name
  | _ => name

/-! ### External data model: `ApiItem`

An item exposes exactly the attributes `HtmlDocumenter` reads.  Mixin and
`instanceof` checks (`ApiStaticMixin`, `ApiPropertyItem`, `ApiDocumentedItem`,
`ApiDeclaredItem`, `ApiReleaseTagMixin`) are modelled by `Option`-valued
fields: `none` means the item does not have that capability. -/

/-- One parameter of a parameterized item: `name` and
`parameterTypeExcerpt.text`. -/
structure Parameter where
  name : String
  parameterTypeText : String
deriving DecidableEq, Repr

/-- The `ApiPropertyItem` capability: `isEventProperty` and
`propertyTypeExcerpt.text`. -/
structure PropertyInfo where
  isEventProperty : Bool
  propertyTypeText : String
deriving DecidableEq, Repr

/-- The parts of a `tsdocComment` the documenter reads: the nodes of
`summarySection` and, when present, of `remarksBlock.content`. -/
structure TsdocComment where
  summary : List DocNode
  remarks : Option (List DocNode) := none

/-- The `ApiDeclaredItem` capability: `excerpt.text` and
`getExcerptWithModifiers()`. -/
structure Excerpt where
  text : String
  withModifiers : String
deriving DecidableEq, Repr

/-- The per-item attributes (everything except the children). -/
structure ApiItemData where
  kind : ApiItemKind
  displayName : String
  /-- `getScopedNameWithinPackage()` (computed by `api-extractor-model`). -/
  scopedName : String := ""
  /-- 1-based overload index (read only for parameter-list kinds). -/
  overloadIndex : Nat := 1
  parameters : List Parameter := []
  /-- `some b` iff `ApiStaticMixin.isBaseClassOf` holds, with `isStatic = b`. -/
  isStatic : Option Bool := none
  /-- `some _` iff the item is an `ApiPropertyItem`. -/
  propertyInfo : Option PropertyInfo := none
  /-- `some _` iff the item is an `ApiDocumentedItem` with a `tsdocComment`. -/
  tsdocComment : Option TsdocComment := none
  /-- `some _` iff the item is an `ApiDeclaredItem`. -/
  excerpt : Option Excerpt := none
  /-- `some t` iff `ApiReleaseTagMixin.isBaseClassOf` holds, with tag `t`. -/
  releaseTag : Option ReleaseTag := none
  /-- `initializerExcerpt.text` of an `ApiEnumMember`. -/
  initializerText : String := ""

/-- An API item: its attributes and its `members` (children).  A `Package`'s
members are its entry points; an `EntryPoint`'s members are the package's
top-level declarations, mirroring the `api-extractor-model` tree. -/
inductive ApiItem where
  | mk (data : ApiItemData) (members : List ApiItem)

/-- The attribute record of an item. -/
def ApiItem.data : ApiItem → ApiItemData
  | .mk d _ => d

/-- The children of an item. -/
def ApiItem.members : ApiItem → List ApiItem
  | .mk _ ms => ms

/-- `apiItem.kind`. -/
def ApiItem.kind (i : ApiItem) : ApiItemKind := i.data.kind

/-- `apiItem.displayName`. -/
def ApiItem.displayName (i : ApiItem) : String := i.data.displayName

/-- `apiItem.overloadIndex`. -/
def ApiItem.overloadIndex (i : ApiItem) : Nat := i.data.overloadIndex

/-! In the embedding an item does not store its parent chain; instead every
function of the documenter that consulted `apiItem.getHierarchy()` receives
the list `anc` of strict ancestors (root first), so that
`getHierarchy() = anc ++ [item]`. -/

/-! ### `HtmlDocumenter._getFilenameForApiItem` -/

/-- The body of the `for (const hierarchyItem of apiItem.getHierarchy())` loop
of `_getFilenameForApiItem`, advancing the accumulated `baseName` by one
hierarchy level. -/
def filenameSegmentStep (baseName : String) (h : ApiItem) : String :=
  -- For overloaded methods, add a suffix such as "MyClass.myMethod_2".
  let qualifiedName : String :=
    getSafeFilenameForName h.displayName ++
      (if h.kind.isParameterListKind ∧ h.overloadIndex > 1 then
        -- Subtract one for compatibility with earlier releases of API Documenter.
        "_" ++ Nat.repr (h.overloadIndex - 1)
      else "")
  match h.kind with
  | .Model | .EntryPoint => baseName
  | .Package => getSafeFilenameForName (getUnscopedName h.displayName)
  | _ => baseName ++ "." ++ qualifiedName

/-- `_getFilenameForApiItem(apiItem)`: `anc` are the strict ancestors of
`apiItem`, root first. -/
def getFilenameForApiItem (anc : List ApiItem) (item : ApiItem) : String :=
  if item.kind = .Model then "index.html"
  else ((anc ++ [item]).foldl filenameSegmentStep "") ++ ".html"

/-- `_getLinkFilenameForApiItem(apiItem)`. -/
def getLinkFilenameForApiItem (anc : List ApiItem) (item : ApiItem) : String :=
  "./" ++ getFilenameForApiItem anc item

/-! ### `HtmlDocumenter._createDocNodes`

The renderer maps every doc node to an optional `HtmlNode` (`undefined` for
`SoftBreak`), throws on kinds without a rendering rule, logs a warning for
link tags without a URL destination, and finally filters the `undefined`
results out.  The translation returns the produced nodes together with the
list of `console.warn` messages, inside `Except` for the throwing path. -/

/-- JavaScript `x || y` on an optional string: `undefined` and `""` are falsy. -/
def jsOrString (x : Option String) (y : String) : String :=
  match x with
  | some s => if s == "" then y else s
  | none => y

/-- JavaScript truthiness of an optional string (`if (link.urlDestination)`). -/
def jsTruthyStr : Option String → Bool
  | none => false
  | some s => !(s == "")

mutual

/-- `_createDocNodes(nodes)`: the `map` over the nodes followed by
`.filter(n => !!n)`. -/
def createDocNodes : List DocNode → Except String (List HtmlNode × List String)
  | ns =>
    match mapDocNodes ns with
    | .error e => .error e
    | .ok (os, ws) => .ok (os.filterMap id, ws)

/-- The `nodes.map(node => ...)` part of `_createDocNodes`, kept with the
`undefined` placeholders and the accumulated warnings. -/
def mapDocNodes : List DocNode → Except String (List (Option HtmlNode) × List String)
  | [] => .ok ([], [])
  | n :: ns =>
    match renderDocNode n with
    | .error e => .error e
    | .ok (o, w1) =>
      match mapDocNodes ns with
      | .error e => .error e
      | .ok (os, w2) => .ok (o :: os, w1 ++ w2)

/-- One arm of the `switch (node.kind)` of `_createDocNodes`. -/
def renderDocNode : DocNode → Except String (Option HtmlNode × List String)
  | .Paragraph ns =>
    match createDocNodes ns with
    | .error e => .error e
    | .ok (hs, ws) => .ok (some (tag "p" (some (.nodes hs)) none), ws)
  | .SoftBreak => .ok (none, [])
  | .CodeSpan code => .ok (some (tag "code" (some (.str code)) none), [])
  | .LinkTag linkText urlDestination =>
    if jsTruthyStr urlDestination then
      .ok (some (a (jsOrString linkText (urlDestination.getD ""))
        (urlDestination.getD "") none), [])
    else
      .ok (some (a (jsOrString linkText "Missing Link") "missing-link" none),
        ["DocLinkTag with codeDestination not supported"])
  | .PlainText text => .ok (some (tag "span" (some (.str text)) none), [])
  | other => .error ("Unsupported DocNode kind: " ++ other.kindStr)

end

/-! ### Page building blocks of `HtmlDocumenter` -/

/-- Modelled from the spec: `Utilities.getConciseSignature` lives in
`src/utils/Utilities.ts`, which is not among the provided sources; the spec
only says table title cells link to the member page under the member's name,
so the concise signature is modelled as the display name. -/
def getConciseSignature (item : ApiItem) : String := item.displayName

/-- `_createTitleCell(apiItem)`; `anc` are the strict ancestors of the cell's
item. -/
def createTitleCell (anc : List ApiItem) (item : ApiItem) : HtmlNode :=
  a (getConciseSignature item) (getLinkFilenameForApiItem anc item) (some "ref")

/-- `_createDescriptionCell(apiItem)` (the `(BETA)` annotation block is
commented out in the source). -/
def createDescriptionCell (item : ApiItem) : Except String HtmlNode :=
  match item.data.tsdocComment with
  | some c =>
    match createDocNodes c.summary with
    | .error e => .error e
    | .ok (hs, _) => .ok (tag "div" (some (.str "description")) (some (.nodes hs)))
  | none => .ok (tag "div" (some (.str "description")) (some (.nodes [])))

/-- `_createModifiersCell(apiItem)`. -/
def createModifiersCell (item : ApiItem) : HtmlNode :=
  match item.data.isStatic with
  | some true => tag "code" (some (.str "modifiers")) (some (.str "static"))
  | _ => tag "div" (some (.str "modifiers")) none

/-- `_createPropertyTypeCell(apiItem)`. -/
def createPropertyTypeCell (item : ApiItem) : HtmlNode :=
  match item.data.propertyInfo with
  | some pi => tag "code" (some (.str "type")) (some (.str pi.propertyTypeText))
  | none => tag "code" (some (.str "type")) none

/-- The loop of `_writeBreadcrumb` over `apiItem.getHierarchy()`; `pre` is the
list of hierarchy entries already consumed (the ancestors of the next entry). -/
def breadcrumbEntries : List ApiItem → List ApiItem → List HtmlNode
  | _, [] => []
  | pre, h :: rest =>
    -- The model is the root-level container and entry points are not shown.
    (match h.kind with
     | .Model | .EntryPoint => []
     | _ => [tag "span" (some (.str "breadcrumb")) (some (.str " / ")),
             a h.displayName (getLinkFilenameForApiItem pre h) (some "breadcrumb")]) ++
    breadcrumbEntries (pre ++ [h]) rest

/-- `_writeBreadcrumb(output, apiItem)`: the nodes pushed onto `output`. -/
def writeBreadcrumb (apiModel : ApiItem) (anc : List ApiItem) (item : ApiItem) : List HtmlNode :=
  a "Home" (getLinkFilenameForApiItem [] apiModel) (some "breadcrumb") ::
    breadcrumbEntries [] (anc ++ [item])

/-- The `switch (apiItem.kind)` computing the `h1` page header of
`_writeApiItemPage`.  (The `console.log` progress message of the `Package`
branch is log output, not page content.) -/
def headingForApiItem (item : ApiItem) : Except String HtmlNode :=
  let scopedName := item.data.scopedName
  match item.kind with
  | .Class => .ok (tag "h1" (some (.str "page-header")) (some (.str (scopedName ++ " class"))))
  | .Enum => .ok (tag "h1" (some (.str "page-header")) (some (.str (scopedName ++ " enum"))))
  | .Interface =>
    .ok (tag "h1" (some (.str "page-header")) (some (.str (scopedName ++ " interface"))))
  | .Constructor | .ConstructSignature =>
    .ok (tag "h1" (some (.str "page-header")) (some (.str scopedName)))
  | .Method | .MethodSignature =>
    .ok (tag "h1" (some (.str "page-header")) (some (.str (scopedName ++ " method"))))
  | .Function =>
    .ok (tag "h1" (some (.str "page-header")) (some (.str (scopedName ++ " function"))))
  | .Model =>
    .ok (tag "h1" (some (.str "page-header")) (some (.str (scopedName ++ " API Reference"))))
  | .Namespace =>
    .ok (tag "h1" (some (.str "page-header")) (some (.str (scopedName ++ " namespace"))))
  | .Package =>
    .ok (tag "h1" (some (.str "page-header"))
      (some (.str (getUnscopedName item.displayName ++ " package"))))
  | .Property | .PropertySignature =>
    .ok (tag "h1" (some (.str "page-header")) (some (.str (scopedName ++ " property"))))
  | .TypeAlias =>
    .ok (tag "h1" (some (.str "page-header")) (some (.str (scopedName ++ " type"))))
  | .Variable =>
    .ok (tag "h1" (some (.str "page-header")) (some (.str (scopedName ++ " variable"))))
  | k => .error ("Unsupported API item kind: " ++ k.toStringValue)

/-- `_writeBetaWarning(output)`: its entire body is commented out in the
source, so it pushes nothing. -/
def writeBetaWarning : List HtmlNode := []

/-- `_writeRemarksSection(output, apiItem)`: the nodes pushed onto `output`
(the `@example` handling is commented out in the source). -/
def writeRemarksSection (item : ApiItem) : Except String (List HtmlNode) :=
  match item.data.tsdocComment with
  | some c =>
    match c.remarks with
    | some ns =>
      match createDocNodes ns with
      | .error e => .error e
      | .ok (hs, _) =>
        .ok [tag "div" (some (.str "remarks")) (some (.str "Remarks")),
             tag "div" (some (.nodes hs)) none]
    | none => .ok []
  | none => .ok []

/-- `_writeThrowsSection(output, apiItem)`: its entire body is commented out
in the source, so it pushes nothing. -/
def writeThrowsSection (_item : ApiItem) : List HtmlNode := []

/-- The `output.push(tag('h3', 'section-heading', title))` shape shared by all
table sections. -/
def sectionHeading (title : String) : HtmlNode :=
  tag "h3" (some (.str "section-heading")) (some (.str title))

/-- The summary block of `_writeApiItemPage` (pushed when the item is an
`ApiDocumentedItem` with a `tsdocComment`; the deprecation notice above it is
commented out in the source). -/
def summarySection (item : ApiItem) : Except String (List HtmlNode) :=
  match item.data.tsdocComment with
  | some c =>
    match createDocNodes c.summary with
    | .error e => .error e
    | .ok (hs, _) => .ok [tag "div" (some (.str "summary")) (some (.nodes hs))]
  | none => .ok []

/-- The signature block of `_writeApiItemPage` (pushed when the item is an
`ApiDeclaredItem` with a non-empty excerpt). -/
def signatureSection (item : ApiItem) : List HtmlNode :=
  match item.data.excerpt with
  | some e =>
    if e.text.length > 0 then
      [tag "div" (some (.str "signature-heading")) (some (.str "Signature")),
       tag "pre" (some (.str "signature")) (some (.str e.withModifiers))]
    else []
  | none => []

/-- `_writeParameterTables(output, apiParameterListMixin)`: the nodes pushed
onto `output` (the return-type block is commented out in the source). -/
def writeParameterTables (item : ApiItem) : List HtmlNode :=
  let parametersTable := pushRows (table ["Parameter", "Type", "Description"])
    (item.data.parameters.map fun p => tr [.inl p.name, .inl p.parameterTypeText])
  if parametersTable.contentLength > 1 then [sectionHeading "Parameters", parametersTable]
  else []

/-- The row loop of `_writeEnumTables` over `apiEnum.members`. -/
def enumRows : List ApiItem → Except String (List HtmlNode)
  | [] => .ok []
  | m :: ms =>
    match createDescriptionCell m with
    | .error e => .error e
    | .ok desc =>
      match enumRows ms with
      | .error e => .error e
      | .ok rest =>
        .ok (tr [.inl (getConciseSignature m), .inl m.data.initializerText, .inr desc] :: rest)

/-- `_writeEnumTables(output, apiEnum)`: the nodes pushed onto `output`
(enum members do not get their own page). -/
def writeEnumTables (item : ApiItem) : Except String (List HtmlNode) :=
  match enumRows item.members with
  | .error e => .error e
  | .ok rows =>
    let enumMembersTable := pushRows (table ["Member", "Value", "Description"]) rows
    .ok (if enumMembersTable.contentLength > 1 then
      [sectionHeading "Enumeration Members", enumMembersTable]
    else [])

/-- One generated output file: its name (relative to the output folder) and
the body content handed to `emit` (the serialization to an HTML string by the
external `html-creator` package is outside the model). -/
abbrev Page := String × List HtmlNode

/-- The rows of the four member tables of a class page, and the pages written
while iterating the members. -/
structure ClassRows where
  events : List HtmlNode := []
  constructors : List HtmlNode := []
  properties : List HtmlNode := []
  methods : List HtmlNode := []
  pages : List Page := []

/-- The rows of the three member tables of an interface page. -/
structure InterfaceRows where
  events : List HtmlNode := []
  properties : List HtmlNode := []
  methods : List HtmlNode := []
  pages : List Page := []

/-- The rows of the seven member tables of a package or namespace page. -/
structure PkgNsRows where
  classes : List HtmlNode := []
  enumerations : List HtmlNode := []
  functions : List HtmlNode := []
  interfaces : List HtmlNode := []
  namespaces : List HtmlNode := []
  vars : List HtmlNode := []
  typeAliases : List HtmlNode := []
  pages : List Page := []

/-- Size of the member list of an item, strictly below the item's own size
(used by the termination argument of the page traversal). -/
theorem ApiItem.sizeOf_members_lt (i : ApiItem) : sizeOf i.members < sizeOf i := by
  cases i with
  | mk d ms => simp [ApiItem.members]

mutual

/-- `_writeApiItemPage(apiItem)`: returns the pages written by this call (the
pages of recursively visited members followed by the item's own page), or the
thrown error.  `anc` are the strict ancestors of `item`, root first;
`apiModel` is the `_apiModel` field. -/
def writeApiItemPage (apiModel : ApiItem) (anc : List ApiItem) (item : ApiItem) :
    Except String (List Page) :=
  let breadcrumbOut := writeBreadcrumb apiModel anc item
  match headingForApiItem item with
  | .error e => .error e
  | .ok heading =>
    let betaOut : List HtmlNode :=
      match item.data.releaseTag with
      | some t => if t = .Beta then writeBetaWarning else []
      | none => []
    match summarySection item with
    | .error e => .error e
    | .ok summaryOut =>
      let signatureOut := signatureSection item
      match writeRemarksSection item with
      | .error e => .error e
      | .ok remarksOut =>
        -- `appendRemarks` is set to false for container kinds, whose remarks
        -- render before the member tables.
        let containerKind : Bool :=
          match item.kind with
          | .Class | .Interface | .Namespace | .Package => true
          | _ => false
        let bodyRes : Except String (List HtmlNode × List Page) :=
          match item.kind with
          | .Class => writeClassTables apiModel anc item
          | .Enum =>
            match writeEnumTables item with
            | .error e => .error e
            | .ok out => .ok (out, [])
          | .Interface => writeInterfaceTables apiModel anc item
          | .Constructor | .ConstructSignature | .Method | .MethodSignature | .Function =>
            .ok (writeParameterTables item ++ writeThrowsSection item, [])
          | .Namespace => writePackageOrNamespaceTables apiModel anc item
          | .Model => writeModelTable apiModel anc item
          | .Package => writePackageOrNamespaceTables apiModel anc item
          | .Property | .PropertySignature => .ok ([], [])
          | .TypeAlias => .ok ([], [])
          | .Variable => .ok ([], [])
          | k => .error ("Unsupported API item kind: " ++ k.toStringValue)
        match bodyRes with
        | .error e => .error e
        | .ok (bodyOut, childPages) =>
          let output := breadcrumbOut ++ [heading] ++ betaOut ++ summaryOut ++ signatureOut ++
            (if containerKind then remarksOut else []) ++ bodyOut ++
            (if containerKind then [] else remarksOut)
          let pageContent : List HtmlNode := [
            tag "header" (some (.nodes [
              tag "div" (some (.str "header-top")) (some (.nodes [
                a "" "https://developers.symphony.com/" (some "header-logo")])),
              tag "div" (some (.str "header-bottom")) (some (.nodes []))])) none,
            tag "div" (some (.str "main")) (some (.nodes output))]
          .ok (childPages ++ [(getFilenameForApiItem anc item, pageContent)])
termination_by 2 * sizeOf item + 1
decreasing_by all_goals (simp_wf; try omega)

/-- `_writeClassTables(output, apiClass)`: the nodes pushed onto `output` and
the member pages written along the way. -/
def writeClassTables (apiModel : ApiItem) (anc : List ApiItem) (cls : ApiItem) :
    Except String (List HtmlNode × List Page) :=
  match classMemberRows apiModel (anc ++ [cls]) cls.members with
  | .error e => .error e
  | .ok r =>
    let eventsTable := pushRows (table ["Property", "Modifiers", "Type", "Description"]) r.events
    let constructorsTable :=
      pushRows (table ["Constructor", "Modifiers", "Description"]) r.constructors
    let propertiesTable :=
      pushRows (table ["Property", "Modifiers", "Type", "Description"]) r.properties
    let methodsTable := pushRows (table ["Method", "Modifiers", "Description"]) r.methods
    let out :=
      (if eventsTable.contentLength > 0 then [sectionHeading "Events", eventsTable] else []) ++
      (if constructorsTable.contentLength > 1 then
        [sectionHeading "Constructors", constructorsTable] else []) ++
      (if propertiesTable.contentLength > 1 then
        [sectionHeading "Properties", propertiesTable] else []) ++
      (if methodsTable.contentLength > 1 then [sectionHeading "Methods", methodsTable] else [])
    .ok (out, r.pages)
termination_by 2 * sizeOf cls
decreasing_by all_goals (simp_wf; have := ApiItem.sizeOf_members_lt cls; omega)

/-- The member loop of `_writeClassTables`: `anc'` are the strict ancestors of
the members (i.e. the hierarchy up to and including the class). -/
def classMemberRows (apiModel : ApiItem) (anc' : List ApiItem) :
    List ApiItem → Except String ClassRows
  | [] => .ok {}
  | m :: ms =>
    match m.kind with
    | .Constructor =>
      match createDescriptionCell m with
      | .error e => .error e
      | .ok desc =>
        let row := tr [.inr (createTitleCell anc' m), .inr (createModifiersCell m), .inr desc]
        match writeApiItemPage apiModel anc' m with
        | .error e => .error e
        | .ok pgs =>
          match classMemberRows apiModel anc' ms with
          | .error e => .error e
          | .ok r => .ok { r with constructors := row :: r.constructors, pages := pgs ++ r.pages }
    | .Method =>
      match createDescriptionCell m with
      | .error e => .error e
      | .ok desc =>
        let row := tr [.inr (createTitleCell anc' m), .inr (createModifiersCell m), .inr desc]
        match writeApiItemPage apiModel anc' m with
        | .error e => .error e
        | .ok pgs =>
          match classMemberRows apiModel anc' ms with
          | .error e => .error e
          | .ok r => .ok { r with methods := row :: r.methods, pages := pgs ++ r.pages }
    | .Property =>
      match createDescriptionCell m with
      | .error e => .error e
      | .ok desc =>
        let row := tr [.inr (createTitleCell anc' m), .inr (createModifiersCell m),
          .inr (createPropertyTypeCell m), .inr desc]
        -- `(apiMember as ApiPropertyItem).isEventProperty`
        let isEvent := (m.data.propertyInfo.map (·.isEventProperty)).getD false
        match writeApiItemPage apiModel anc' m with
        | .error e => .error e
        | .ok pgs =>
          match classMemberRows apiModel anc' ms with
          | .error e => .error e
          | .ok r =>
            if isEvent then .ok { r with events := row :: r.events, pages := pgs ++ r.pages }
            else .ok { r with properties := row :: r.properties, pages := pgs ++ r.pages }
    | _ => classMemberRows apiModel anc' ms
termination_by ms => 2 * sizeOf ms
decreasing_by all_goals (simp_wf; try omega)

/-- `_writeInterfaceTables(output, apiClass)`. -/
def writeInterfaceTables (apiModel : ApiItem) (anc : List ApiItem) (iface : ApiItem) :
    Except String (List HtmlNode × List Page) :=
  match interfaceMemberRows apiModel (anc ++ [iface]) iface.members with
  | .error e => .error e
  | .ok r =>
    let eventsTable := pushRows (table ["Property", "Type", "Description"]) r.events
    let propertiesTable := pushRows (table ["Property", "Type", "Description"]) r.properties
    let methodsTable := pushRows (table ["Method", "Description"]) r.methods
    let out :=
      (if eventsTable.contentLength > 1 then [sectionHeading "Events", eventsTable] else []) ++
      (if propertiesTable.contentLength > 1 then
        [sectionHeading "Properties", propertiesTable] else []) ++
      (if methodsTable.contentLength > 1 then [sectionHeading "Methods", methodsTable] else [])
    .ok (out, r.pages)
termination_by 2 * sizeOf iface
decreasing_by all_goals (simp_wf; have := ApiItem.sizeOf_members_lt iface; omega)

/-- The member loop of `_writeInterfaceTables`. -/
def interfaceMemberRows (apiModel : ApiItem) (anc' : List ApiItem) :
    List ApiItem → Except String InterfaceRows
  | [] => .ok {}
  | m :: ms =>
    match m.kind with
    | .ConstructSignature | .MethodSignature =>
      match createDescriptionCell m with
      | .error e => .error e
      | .ok desc =>
        let row := tr [.inr (createTitleCell anc' m), .inr desc]
        match writeApiItemPage apiModel anc' m with
        | .error e => .error e
        | .ok pgs =>
          match interfaceMemberRows apiModel anc' ms with
          | .error e => .error e
          | .ok r => .ok { r with methods := row :: r.methods, pages := pgs ++ r.pages }
    | .PropertySignature =>
      match createDescriptionCell m with
      | .error e => .error e
      | .ok desc =>
        let row := tr [.inr (createTitleCell anc' m), .inr (createPropertyTypeCell m), .inr desc]
        let isEvent := (m.data.propertyInfo.map (·.isEventProperty)).getD false
        match writeApiItemPage apiModel anc' m with
        | .error e => .error e
        | .ok pgs =>
          match interfaceMemberRows apiModel anc' ms with
          | .error e => .error e
          | .ok r =>
            if isEvent then .ok { r with events := row :: r.events, pages := pgs ++ r.pages }
            else .ok { r with properties := row :: r.properties, pages := pgs ++ r.pages }
    | _ => interfaceMemberRows apiModel anc' ms
termination_by ms => 2 * sizeOf ms
decreasing_by all_goals (simp_wf; try omega)

/-- `_writePackageOrNamespaceTables(output, apiContainer)`: for a `Package`
the enumerated members are `apiContainer.entryPoints[0].members` (so the
entry point joins the members' ancestor chain); for a `Namespace` they are its
direct members. -/
def writePackageOrNamespaceTables (apiModel : ApiItem) (anc : List ApiItem)
    (container : ApiItem) : Except String (List HtmlNode × List Page) :=
  let rowsRes :=
    if container.kind = .Package then
      match h : container.members with
      | [] => .error "TypeError: cannot read entryPoints[0] of a package without entry points"
      | ep :: _ => pkgNsMemberRows apiModel (anc ++ [container, ep]) ep.members
    else pkgNsMemberRows apiModel (anc ++ [container]) container.members
  match rowsRes with
  | .error e => .error e
  | .ok r =>
    let classesTable := pushRows (table ["Class", "Description"]) r.classes
    let enumerationsTable := pushRows (table ["Enumeration", "Description"]) r.enumerations
    let functionsTable := pushRows (table ["Function", "Description"]) r.functions
    let interfacesTable := pushRows (table ["Interface", "Description"]) r.interfaces
    let namespacesTable := pushRows (table ["Namespace", "Description"]) r.namespaces
    let variablesTable := pushRows (table ["Variable", "Description"]) r.vars
    let typeAliasesTable := pushRows (table ["Type Alias", "Description"]) r.typeAliases
    let out :=
      (if classesTable.contentLength > 1 then [sectionHeading "Classes", classesTable] else []) ++
      (if enumerationsTable.contentLength > 1 then
        [sectionHeading "Enumerations", enumerationsTable] else []) ++
      (if functionsTable.contentLength > 1 then
        [sectionHeading "Functions", functionsTable] else []) ++
      (if interfacesTable.contentLength > 1 then
        [sectionHeading "Interfaces", interfacesTable] else []) ++
      (if namespacesTable.contentLength > 1 then
        [sectionHeading "Namespaces", namespacesTable] else []) ++
      (if variablesTable.contentLength > 1 then
        [sectionHeading "Variables", variablesTable] else []) ++
      (if typeAliasesTable.contentLength > 1 then
        [sectionHeading "Types", typeAliasesTable] else [])
    .ok (out, r.pages)
termination_by 2 * sizeOf container
decreasing_by
  all_goals simp_wf
  all_goals
    first
    | (have h1 := ApiItem.sizeOf_members_lt ep
       have h2 := ApiItem.sizeOf_members_lt container
       rw [h] at h2
       simp at h2
       omega)
    | (have hc := ApiItem.sizeOf_members_lt container; omega)

/-- The member loop of `_writePackageOrNamespaceTables`: the row (title and
description cells) is built for every member before the kind switch routes or
skips it. -/
def pkgNsMemberRows (apiModel : ApiItem) (anc' : List ApiItem) :
    List ApiItem → Except String PkgNsRows
  | [] => .ok {}
  | m :: ms =>
    match createDescriptionCell m with
    | .error e => .error e
    | .ok desc =>
      let row := tr [.inr (createTitleCell anc' m), .inr desc]
      match m.kind with
      | .Class =>
        match writeApiItemPage apiModel anc' m with
        | .error e => .error e
        | .ok pgs =>
          match pkgNsMemberRows apiModel anc' ms with
          | .error e => .error e
          | .ok r => .ok { r with classes := row :: r.classes, pages := pgs ++ r.pages }
      | .Enum =>
        match writeApiItemPage apiModel anc' m with
        | .error e => .error e
        | .ok pgs =>
          match pkgNsMemberRows apiModel anc' ms with
          | .error e => .error e
          | .ok r => .ok { r with enumerations := row :: r.enumerations, pages := pgs ++ r.pages }
      | .Interface =>
        match writeApiItemPage apiModel anc' m with
        | .error e => .error e
        | .ok pgs =>
          match pkgNsMemberRows apiModel anc' ms with
          | .error e => .error e
          | .ok r => .ok { r with interfaces := row :: r.interfaces, pages := pgs ++ r.pages }
      | .Namespace =>
        match writeApiItemPage apiModel anc' m with
        | .error e => .error e
        | .ok pgs =>
          match pkgNsMemberRows apiModel anc' ms with
          | .error e => .error e
          | .ok r => .ok { r with namespaces := row :: r.namespaces, pages := pgs ++ r.pages }
      | .Function =>
        match writeApiItemPage apiModel anc' m with
        | .error e => .error e
        | .ok pgs =>
          match pkgNsMemberRows apiModel anc' ms with
          | .error e => .error e
          | .ok r => .ok { r with functions := row :: r.functions, pages := pgs ++ r.pages }
      | .TypeAlias =>
        match writeApiItemPage apiModel anc' m with
        | .error e => .error e
        | .ok pgs =>
          match pkgNsMemberRows apiModel anc' ms with
          | .error e => .error e
          | .ok r => .ok { r with typeAliases := row :: r.typeAliases, pages := pgs ++ r.pages }
      | .Variable =>
        match writeApiItemPage apiModel anc' m with
        | .error e => .error e
        | .ok pgs =>
          match pkgNsMemberRows apiModel anc' ms with
          | .error e => .error e
          | .ok r => .ok { r with vars := row :: r.vars, pages := pgs ++ r.pages }
      | _ => pkgNsMemberRows apiModel anc' ms
termination_by ms => 2 * sizeOf ms
decreasing_by all_goals (simp_wf; try omega)

/-- `_writeModelTable(output, apiModel)`. -/
def writeModelTable (apiModel : ApiItem) (anc : List ApiItem) (mdl : ApiItem) :
    Except String (List HtmlNode × List Page) :=
  match modelRows apiModel (anc ++ [mdl]) mdl.members with
  | .error e => .error e
  | .ok (rows, pgs) =>
    let packagesTable := pushRows (table ["Package", "Description"]) rows
    .ok ((if packagesTable.contentLength > 0 then
      [sectionHeading "Packages", packagesTable] else []), pgs)
termination_by 2 * sizeOf mdl
decreasing_by all_goals (simp_wf; have := ApiItem.sizeOf_members_lt mdl; omega)

/-- The member loop of `_writeModelTable`: the row is built for every member;
only `Package` members are routed (and get pages), others are skipped. -/
def modelRows (apiModel : ApiItem) (anc' : List ApiItem) :
    List ApiItem → Except String (List HtmlNode × List Page)
  | [] => .ok ([], [])
  | m :: ms =>
    match createDescriptionCell m with
    | .error e => .error e
    | .ok desc =>
      let row := tr [.inr (createTitleCell anc' m), .inr desc]
      match m.kind with
      | .Package =>
        match writeApiItemPage apiModel anc' m with
        | .error e => .error e
        | .ok pgs =>
          match modelRows apiModel anc' ms with
          | .error e => .error e
          | .ok (rows, pgs') => .ok (row :: rows, pgs ++ pgs')
      | _ => modelRows apiModel anc' ms
termination_by ms => 2 * sizeOf ms
decreasing_by all_goals (simp_wf; try omega)

end

/-! ### Auxiliary lemmas: strings and decimal representations -/

theorem string_ext {s t : String} (h : s.data = t.data) : s = t :=
  congrArg String.mk h

theorem string_append_left_cancel {a b c : String} (h : a ++ b = a ++ c) : b = c := by
  have hd := congrArg String.data h
  rw [String.data_append, String.data_append] at hd
  have := List.append_cancel_left hd
  cases b; cases c; exact congrArg String.mk this

theorem string_append_right_cancel {a b c : String} (h : a ++ c = b ++ c) : a = b := by
  have hd := congrArg String.data h
  rw [String.data_append, String.data_append] at hd
  have := List.append_cancel_right hd
  cases a; cases b; exact congrArg String.mk this

theorem string_join_cons (s : String) (l : List String) :
    String.join (s :: l) = s ++ String.join l := by
  simp [String.join_eq]; cases s; rfl

theorem digitChar_inj (a b : Nat) (ha : a < 10) (hb : b < 10)
    (h : Nat.digitChar a = Nat.digitChar b) : a = b := by
  interval_cases a <;> interval_cases b <;> simp_all [Nat.digitChar]

theorem map_digitChar_inj : ∀ (l1 l2 : List Nat), (∀ x ∈ l1, x < 10) → (∀ x ∈ l2, x < 10) →
    l1.map Nat.digitChar = l2.map Nat.digitChar → l1 = l2
  | [], [], _, _, _ => rfl
  | [], _ :: _, _, _, h => by simp at h
  | _ :: _, [], _, _, h => by simp at h
  | x :: xs, y :: ys, h1, h2, h => by
    simp only [List.map_cons, List.cons.injEq] at h
    have hx := digitChar_inj x y (h1 x (.head _)) (h2 y (.head _)) h.1
    have := map_digitChar_inj xs ys (fun z hz => h1 z (.tail _ hz))
      (fun z hz => h2 z (.tail _ hz)) h.2
    rw [hx, this]

theorem toDigitsCore_eq_digits (b : Nat) (hb : 1 < b) :
    ∀ (fuel n : Nat) (ds : List Char), 0 < n → n < b ^ fuel →
      Nat.toDigitsCore b fuel n ds = ((Nat.digits b n).map Nat.digitChar).reverse ++ ds := by
  intro fuel
  induction fuel with
  | zero => intro n ds h1 h2; simp at h2; omega
  | succ fuel ih =>
    intro n ds hn hlt
    rw [Nat.toDigitsCore]
    rw [Nat.digits_def' hb hn]
    by_cases h : n / b = 0
    · have : Nat.digits b (n / b) = [] := by rw [h]; simp
      simp [h, this]
    · rw [if_neg h]
      rw [ih (n / b) (Nat.digitChar (n % b) :: ds) (Nat.pos_of_ne_zero h)
        (Nat.nat_repr_len_aux n b fuel (by omega) hlt)]
      simp

theorem natRepr_eq_digits (n : Nat) (hn : 0 < n) :
    Nat.repr n = String.mk (((Nat.digits 10 n).map Nat.digitChar).reverse) := by
  have h1 : n < 10 ^ (n + 1) := by
    calc n < 2 ^ n := Nat.lt_two_pow n
    _ ≤ 10 ^ n := Nat.pow_le_pow_left (by omega) n
    _ ≤ 10 ^ (n + 1) := Nat.pow_le_pow_right (by omega) (Nat.le_succ n)
  show (Nat.toDigits 10 n).asString = _
  rw [Nat.toDigits]
  rw [toDigitsCore_eq_digits 10 (by omega) (n + 1) n [] hn h1]
  simp [List.asString]

theorem natRepr_injective (m n : Nat) (h : Nat.repr m = Nat.repr n) : m = n := by
  have key : ∀ k : Nat, 0 < k → Nat.repr k ≠ "0" := by
    intro k hk heq
    rw [natRepr_eq_digits k hk] at heq
    have hrev : ((Nat.digits 10 k).map Nat.digitChar).reverse = ['0'] := by
      have := congrArg String.data heq
      simpa using this
    have h2 : (Nat.digits 10 k).map Nat.digitChar = ['0'] := by
      have := congrArg List.reverse hrev
      simpa using this
    have h3 : Nat.digits 10 k = [0] := by
      have h0 : Nat.digitChar 0 = '0' := by decide
      rw [← h0] at h2
      exact map_digitChar_inj _ [0] (fun x hx => Nat.digits_lt_base (by omega) hx)
        (by intro x hx; simp at hx; omega) h2
    have := Nat.ofDigits_digits 10 k
    rw [h3] at this
    simp [Nat.ofDigits] at this
    omega
  rcases Nat.eq_zero_or_pos m with hm | hm
  · rcases Nat.eq_zero_or_pos n with hn | hn
    · omega
    · subst hm
      exact absurd h.symm (key n hn)
  · rcases Nat.eq_zero_or_pos n with hn | hn
    · subst hn
      exact absurd h (key m hm)
    · rw [natRepr_eq_digits m hm, natRepr_eq_digits n hn] at h
      have hdata := congrArg String.data h
      simp only at hdata
      have hmap := List.reverse_injective
        (hdata : ((Nat.digits 10 m).map Nat.digitChar).reverse =
          ((Nat.digits 10 n).map Nat.digitChar).reverse)
      have hdig := map_digitChar_inj _ _
        (fun x hx => Nat.digits_lt_base (by omega) hx)
        (fun x hx => Nat.digits_lt_base (by omega) hx) hmap
      have h1 := Nat.ofDigits_digits 10 m
      have h2 := Nat.ofDigits_digits 10 n
      rw [hdig] at h1
      rw [h2] at h1
      omega

/-! ### Auxiliary lemmas: the filename resolver -/

theorem paramList_kind_cases (k : ApiItemKind) (h : k.isParameterListKind = true) :
    k ≠ .Model ∧ k ≠ .EntryPoint ∧ k ≠ .Package := by
  cases k <;> simp_all [ApiItemKind.isParameterListKind]

theorem filenameSegmentStep_paramList (B : String) (h : ApiItem)
    (hk : h.kind.isParameterListKind = true) :
    filenameSegmentStep B h = B ++ "." ++ (getSafeFilenameForName h.displayName ++
      (if h.overloadIndex > 1 then "_" ++ Nat.repr (h.overloadIndex - 1) else "")) := by
  cases hco : h.kind <;>
    rw [hco] at hk <;>
    simp_all [filenameSegmentStep, ApiItemKind.isParameterListKind]

theorem overload_suffix_ne (i j : Nat) (hi : 1 ≤ i) (hj : 1 ≤ j) (hij : i ≠ j) :
    (if i > 1 then "_" ++ Nat.repr (i - 1) else "") ≠
      (if j > 1 then "_" ++ Nat.repr (j - 1) else "") := by
  have hempty : ∀ k : Nat, ("_" ++ Nat.repr k : String) ≠ "" := by
    intro k he
    have := congrArg String.data he
    simp [String.data_append] at this
  by_cases h1 : i > 1 <;> by_cases h2 : j > 1
  · rw [if_pos h1, if_pos h2]
    intro he
    have := natRepr_injective _ _ (string_append_left_cancel he)
    omega
  · rw [if_pos h1, if_neg h2]
    exact hempty (i - 1)
  · rw [if_neg h1, if_pos h2]
    exact fun he => hempty (j - 1) he.symm
  · exfalso; omega

theorem getFilename_paramList (pre : List ApiItem) (x : ApiItem)
    (hx : x.kind.isParameterListKind = true) :
    getFilenameForApiItem pre x = (List.foldl filenameSegmentStep "" pre) ++ "." ++
      (getSafeFilenameForName x.displayName ++
        (if x.overloadIndex > 1 then "_" ++ Nat.repr (x.overloadIndex - 1) else "")) ++
      ".html" := by
  unfold getFilenameForApiItem
  rw [if_neg (paramList_kind_cases x.kind hx).1]
  rw [List.foldl_append]
  simp only [List.foldl]
  rw [filenameSegmentStep_paramList _ _ hx]

/-! ### Concrete example items -/

/-- An API model root. -/
def modelItem : ApiItem := .mk { kind := .Model, displayName := "" } []

/-- An unscoped package named `pkg`. -/
def pkgItem : ApiItem := .mk { kind := .Package, displayName := "pkg" } []

/-- An entry point (display name empty, as in `api-extractor-model`). -/
def epItem : ApiItem := .mk { kind := .EntryPoint, displayName := "" } []

/-- A non-overloaded function `foo` (overload index 1). -/
def funcFoo : ApiItem := .mk { kind := .Function, displayName := "foo" } []

/-- The second overload of a function `foo` (overload index 2). -/
def funcFooOverload2 : ApiItem :=
  .mk { kind := .Function, displayName := "foo", overloadIndex := 2 } []

/-- A non-overloaded function named `foo_1` — legal TypeScript, and legal next
to an overloaded `foo` in the same module. -/
def funcFooUnderscoreOne : ApiItem := .mk { kind := .Function, displayName := "foo_1" } []

/-- A package with a publisher scope, `@scope/widgets`. -/
def pkgScopedItem : ApiItem := .mk { kind := .Package, displayName := "@scope/widgets" } []

/-- A class `Widget` with no members. -/
def clsWidgetPlain : ApiItem := .mk { kind := .Class, displayName := "Widget" } []

theorem string_append_assoc (s t u : String) : (s ++ t) ++ u = s ++ (t ++ u) := by
  apply string_ext
  simp [String.data_append, List.append_assoc]

/-! ### The filename rule as worded by the spec (§4.4)

A second definition of the filename mapping, written from the spec's words
rather than from the source, for the refinement claim C3. -/

/-- Whether a hierarchy level is a real (shown) level, i.e. not one of the two
synthetic `Model`/`EntryPoint` levels that §4.4 skips. -/
def isRealLevel (h : ApiItem) : Bool := !(h.kind == .Model || h.kind == .EntryPoint)

/-- The hierarchy with the synthetic `Model` and `EntryPoint` levels skipped. -/
def realLevels (hs : List ApiItem) : List ApiItem := hs.filter isRealLevel

/-- Spec §4.4 rules 2–3: each level after the root-most real one contributes
`.` + a filesystem-safe form of its display name, with `_` + (overload index −
1) appended when the level is a parameterized declaration whose overload index
exceeds 1. -/
def specSegment (h : ApiItem) : String :=
  "." ++ getSafeFilenameForName h.displayName ++
    (if h.kind.isParameterListKind ∧ h.overloadIndex > 1 then
      "_" ++ Nat.repr (h.overloadIndex - 1)
    else "")

/-- Definition following the spec's words (§4.4): the root-most real level (a
`Package`) contributes the unscoped package name as the base, subsequent
levels contribute their segments, the result is suffixed with the HTML
extension, and the `Model` item maps to the fixed root index filename. -/
def filenameSpec (anc : List ApiItem) (item : ApiItem) : String :=
  if item.kind = .Model then "index.html"
  else
    match realLevels (anc ++ [item]) with
    | [] => ".html"
    | p :: rest => getUnscopedName p.displayName ++ String.join (rest.map specSegment) ++ ".html"

theorem filenameSegmentStep_skipped (B : String) (x : ApiItem)
    (hx : ¬ isRealLevel x = true) : filenameSegmentStep B x = B := by
  cases hco : x.kind <;> simp_all [filenameSegmentStep, isRealLevel]

theorem filenameSegmentStep_default (B : String) (x : ApiItem)
    (hreal : isRealLevel x = true) (hnp : x.kind ≠ .Package) :
    filenameSegmentStep B x = B ++ specSegment x := by
  cases hco : x.kind <;>
    simp_all [filenameSegmentStep, specSegment, isRealLevel, string_append_assoc]

theorem foldl_step_filter (hs : List ApiItem) : ∀ B : String,
    List.foldl filenameSegmentStep B hs = List.foldl filenameSegmentStep B (realLevels hs) := by
  induction hs with
  | nil => intro B; rfl
  | cons x hs ih =>
    intro B
    by_cases hx : isRealLevel x = true
    · simp [realLevels, List.filter_cons, hx, List.foldl]
      rw [ih]
      rfl
    · simp [realLevels, List.filter_cons, Bool.of_not_eq_true hx, List.foldl,
        filenameSegmentStep_skipped B x hx]
      rw [ih]
      rfl

theorem foldl_step_specSegments (rest : List ApiItem) : ∀ B : String,
    (∀ x ∈ rest, isRealLevel x = true ∧ x.kind ≠ .Package) →
    List.foldl filenameSegmentStep B rest = B ++ String.join (rest.map specSegment) := by
  induction rest with
  | nil => intro B _; simp [String.join]
  | cons x rest ih =>
    intro B hrest
    obtain ⟨hr, hp⟩ := hrest x (.head _)
    simp only [List.foldl, List.map, string_join_cons]
    rw [filenameSegmentStep_default B x hr hp]
    rw [ih _ (fun z hz => hrest z (.tail _ hz))]
    rw [string_append_assoc]

/-! ### Claim C1 -/

/-- C1 (counterexample): the filename mapping is *not* injective on distinct
items that can occur in one generation run: the non-overloaded function
`foo_1` and the second overload of `foo`, siblings under the same package
entry point, map to the same filename `pkg.foo_1.html` although they are
distinct items. -/
theorem c1_filename_collision :
    getFilenameForApiItem [modelItem, pkgItem, epItem] funcFooUnderscoreOne =
      getFilenameForApiItem [modelItem, pkgItem, epItem] funcFooOverload2 ∧
    funcFooUnderscoreOne ≠ funcFooOverload2 := by
  refine ⟨by decide, fun h => ?_⟩
  exact absurd (congrArg ApiItem.displayName h) (by decide)

/-- C1 (amended): the overload-index suffix rule does preserve injectivity
among same-named overloads sharing a container: two parameterized items with
the same display name under the same ancestor chain but distinct (1-based)
overload indices always receive distinct filenames.  (Full injectivity over
arbitrary distinct items fails, as `c1_filename_collision` shows.) -/
theorem c1_overload_suffix_injective (pre : List ApiItem) (x y : ApiItem)
    (hname : x.displayName = y.displayName)
    (hx : x.kind.isParameterListKind = true) (hy : y.kind.isParameterListKind = true)
    (hx1 : 1 ≤ x.overloadIndex) (hy1 : 1 ≤ y.overloadIndex)
    (hij : x.overloadIndex ≠ y.overloadIndex) :
    getFilenameForApiItem pre x ≠ getFilenameForApiItem pre y := by
  intro he
  rw [getFilename_paramList pre x hx, getFilename_paramList pre y hy, hname] at he
  have h1 := string_append_left_cancel (string_append_right_cancel he)
  have h2 := string_append_left_cancel h1
  exact overload_suffix_ne _ _ hx1 hy1 hij h2

/-- Witness for `c1_overload_suffix_injective`: the two overloads of `foo`
(indices 1 and 2) receive distinct filenames. -/
theorem c1_overload_suffix_injective_witness :
    getFilenameForApiItem [modelItem, pkgItem, epItem] funcFoo ≠
      getFilenameForApiItem [modelItem, pkgItem, epItem] funcFooOverload2 :=
  c1_overload_suffix_injective [modelItem, pkgItem, epItem] funcFoo funcFooOverload2
    rfl (by decide) (by decide) (by decide) (by decide) (by decide)

/-! ### Claim C2 -/

/-- C2 (counterexample): the claim says overload indices 1 and 2 yield
`<Package>.foo.html` and `<Package>.foo_2.html`; in the code the emitted
suffix is `overloadIndex − 1`, so index 2 yields `pkg.foo_1.html`, not
`pkg.foo_2.html`. -/
theorem c2_overload2_suffix_is_one :
    getFilenameForApiItem [modelItem, pkgItem, epItem] funcFooOverload2 = "pkg.foo_1.html" ∧
    ("pkg.foo_1.html" : String) ≠ "pkg.foo_2.html" :=
  ⟨by decide, by decide⟩

/-- C2 (amended): for every parameterized level with overload index > 1 the
resolver appends `_` + (overloadIndex − 1) to that level's segment; a single
non-overloaded `foo` yields `pkg.foo.html`, and overload indices 1 and 2
yield `pkg.foo.html` and `pkg.foo_1.html` respectively. -/
theorem c2_overload_suffix_rule :
    (∀ (B : String) (h : ApiItem), h.kind.isParameterListKind = true → h.overloadIndex > 1 →
      filenameSegmentStep B h = B ++ "." ++ (getSafeFilenameForName h.displayName ++
        ("_" ++ Nat.repr (h.overloadIndex - 1)))) ∧
    getFilenameForApiItem [modelItem, pkgItem, epItem] funcFoo = "pkg.foo.html" ∧
    getFilenameForApiItem [modelItem, pkgItem, epItem] funcFooOverload2 = "pkg.foo_1.html" := by
  refine ⟨?_, by decide, by decide⟩
  intro B h hk hidx
  rw [filenameSegmentStep_paramList B h hk, if_pos hidx]

/-- Witness for `c2_overload_suffix_rule` at a concrete overloaded item. -/
theorem c2_overload_suffix_rule_witness :
    filenameSegmentStep "pkg" funcFooOverload2 =
      "pkg" ++ "." ++ (getSafeFilenameForName funcFooOverload2.displayName ++
        ("_" ++ Nat.repr (funcFooOverload2.overloadIndex - 1))) :=
  c2_overload_suffix_rule.1 "pkg" funcFooOverload2 (by decide) (by decide)

/-! ### Claim C3 -/

/-- C3: the source filename resolver refines the spec's wording: the `Model`
item maps to the fixed root index filename, and for every item whose skipped
hierarchy starts with a `Package` (whose unscoped name is already
filesystem-safe, as npm package names are) followed by non-`Package` levels,
the derived filename equals the spec's base + `.`-joined safe segments +
`.html`. -/
theorem c3_filename_follows_spec :
    (∀ (anc : List ApiItem) (item : ApiItem), item.kind = .Model →
      getFilenameForApiItem anc item = "index.html") ∧
    (∀ (anc : List ApiItem) (item p : ApiItem) (rest : List ApiItem),
      item.kind ≠ .Model →
      realLevels (anc ++ [item]) = p :: rest →
      p.kind = .Package →
      getSafeFilenameForName (getUnscopedName p.displayName) = getUnscopedName p.displayName →
      (∀ x ∈ rest, x.kind ≠ .Package) →
      getFilenameForApiItem anc item = filenameSpec anc item) := by
  constructor
  · intro anc item hm
    rw [getFilenameForApiItem, if_pos hm]
  · intro anc item p rest hnm hreal hpk hsafe hnop
    rw [getFilenameForApiItem, if_neg hnm, filenameSpec, if_neg hnm, hreal]
    rw [foldl_step_filter, hreal]
    simp only [List.foldl]
    have hp : filenameSegmentStep "" p = getSafeFilenameForName (getUnscopedName p.displayName) := by
      cases hco : p.kind <;> simp_all [filenameSegmentStep]
    rw [hp, hsafe]
    rw [foldl_step_specSegments rest _ ?_]
    · intro x hx
      refine ⟨?_, hnop x hx⟩
      have : x ∈ realLevels (anc ++ [item]) := by rw [hreal]; exact .tail _ hx
      exact List.of_mem_filter this

/-- Witness for `c3_filename_follows_spec`: a class `Widget` inside the scoped
package `@scope/widgets` gets `widgets.widget.html` on both sides. -/
theorem c3_filename_follows_spec_witness :
    getFilenameForApiItem [modelItem, pkgScopedItem, epItem] clsWidgetPlain =
      filenameSpec [modelItem, pkgScopedItem, epItem] clsWidgetPlain :=
  c3_filename_follows_spec.2 [modelItem, pkgScopedItem, epItem] clsWidgetPlain
    pkgScopedItem [clsWidgetPlain] (by decide) rfl rfl (by decide) (by decide)

/-! ### Claim C4 -/

/-- The texts of the anchor nodes in a node sequence (the breadcrumb's link
labels, in order; separator spans are not anchors). -/
def anchorTexts (ns : List HtmlNode) : List String :=
  ns.filterMap fun n =>
    match n with
    | .text t _ s => if t == "a" then some s else none
    | _ => none

/-- A namespace `nspace`. -/
def nsSpaceItem : ApiItem := .mk { kind := .Namespace, displayName := "nspace" } []

/-- A method `doThing` with no parameters. -/
def methodDoThing : ApiItem := .mk { kind := .Method, displayName := "doThing" } []

theorem anchorTexts_append (xs ys : List HtmlNode) :
    anchorTexts (xs ++ ys) = anchorTexts xs ++ anchorTexts ys := by
  simp [anchorTexts, List.filterMap_append]

theorem anchorTexts_breadcrumbEntries (hs : List ApiItem) : ∀ pre : List ApiItem,
    anchorTexts (breadcrumbEntries pre hs) = (hs.filter isRealLevel).map ApiItem.displayName := by
  induction hs with
  | nil => intro pre; rfl
  | cons x hs ih =>
    intro pre
    rw [breadcrumbEntries, anchorTexts_append, ih]
    cases hco : x.kind <;>
      simp [isRealLevel, hco, List.filter_cons, anchorTexts, a, tag, tagCore,
        jsTruthyArg, asClassName]

theorem length_breadcrumbEntries (hs : List ApiItem) : ∀ pre : List ApiItem,
    (breadcrumbEntries pre hs).length = 2 * (hs.filter isRealLevel).length := by
  induction hs with
  | nil => intro pre; rfl
  | cons x hs ih =>
    intro pre
    rw [breadcrumbEntries, List.length_append, ih]
    cases hco : x.kind <;>
      simp [isRealLevel, hco, List.filter_cons] <;> omega

/-- C4 (corrected): the breadcrumb is a Home link followed by a separator and
a link for every hierarchy entry that is not a `Model` or `EntryPoint` level —
the `Package` level *is* shown.  For the chain Package → Namespace → Class →
Method the breadcrumb link labels are Home / pkg / nspace / Widget / doThing,
not Home / nspace / Widget / doThing as the claim's example states. -/
theorem c4_breadcrumb_shows_package :
    (∀ (apiModel : ApiItem) (anc : List ApiItem) (item : ApiItem),
      anchorTexts (writeBreadcrumb apiModel anc item) =
        "Home" :: ((anc ++ [item]).filter isRealLevel).map ApiItem.displayName) ∧
    (∀ (apiModel : ApiItem) (anc : List ApiItem) (item : ApiItem),
      (writeBreadcrumb apiModel anc item).length =
        1 + 2 * ((anc ++ [item]).filter isRealLevel).length) ∧
    anchorTexts (writeBreadcrumb modelItem
        [modelItem, pkgItem, epItem, nsSpaceItem, clsWidgetPlain] methodDoThing) =
      ["Home", "pkg", "nspace", "Widget", "doThing"] := by
  refine ⟨?_, ?_, by decide⟩
  · intro apiModel anc item
    rw [writeBreadcrumb]
    show anchorTexts (a "Home" (getLinkFilenameForApiItem [] apiModel) (some "breadcrumb")
      :: breadcrumbEntries [] (anc ++ [item])) = _
    rw [show ∀ (x : HtmlNode) (xs : List HtmlNode), x :: xs = [x] ++ xs from fun _ _ => rfl,
      anchorTexts_append, anchorTexts_breadcrumbEntries]
    rfl
  · intro apiModel anc item
    rw [writeBreadcrumb, List.length_cons, length_breadcrumbEntries]
    omega

/-- C4 (counterexample): for the deeply nested chain Package → Namespace →
Class → Method, the claim says the breadcrumb contains exactly
"Home / Namespace / Class / Method"; the generated breadcrumb's link labels
also contain the package, so they differ from the claimed four labels. -/
theorem c4_breadcrumb_counterexample :
    anchorTexts (writeBreadcrumb modelItem
        [modelItem, pkgItem, epItem, nsSpaceItem, clsWidgetPlain] methodDoThing) =
      ["Home", "pkg", "nspace", "Widget", "doThing"] ∧
    (["Home", "pkg", "nspace", "Widget", "doThing"] : List String) ≠
      ["Home", "nspace", "Widget", "doThing"] :=
  ⟨by decide, by decide⟩

/-! ### Claim C6 -/

/-- The texts of the header cells of a table node (first child = `thead`, its
first child = the header `tr`, whose children are the `th` cells). -/
def columnHeadings : HtmlNode → List String
  | .block _ _ (HtmlNode.block _ _ (HtmlNode.block _ _ cells :: _) :: _) =>
    cells.filterMap fun c =>
      match c with
      | .text _ _ s => some s
      | _ => none
  | _ => []

/-- A method `doThing` with a single parameter `x: number`. -/
def methodWithParamX : ApiItem :=
  .mk { kind := .Method, displayName := "doThing",
        parameters := [{ name := "x", parameterTypeText := "number" }] } []

/-- A method `reset` with no parameters. -/
def methodNoParams : ApiItem := .mk { kind := .Method, displayName := "reset" } []

theorem writeParameterTables_eq (item : ApiItem) :
    writeParameterTables item =
      if item.data.parameters.isEmpty then []
      else [sectionHeading "Parameters",
        pushRows (table ["Parameter", "Type", "Description"])
          (item.data.parameters.map fun p => tr [.inl p.name, .inl p.parameterTypeText])] := by
  unfold writeParameterTables
  cases hp : item.data.parameters with
  | nil => simp [pushRows, table, tag, tagCore, jsTruthyArg, asClassName, HtmlNode.contentLength]
  | cons p ps =>
    simp [pushRows, table, tag, tagCore, jsTruthyArg, asClassName, HtmlNode.contentLength]

/-- C6 (counterexample): the claim says the Parameters table has the columns
(Parameter, Type); the emitted table's header cells are (Parameter, Type,
Description).  Moreover a zero-parameter method gets no Parameters table at
all, although the claim promises one for every function-like item. -/
theorem c6_parameters_table_counterexample :
    ((writeParameterTables methodWithParamX).map columnHeadings) =
      [[], ["Parameter", "Type", "Description"]] ∧
    (["Parameter", "Type", "Description"] : List String) ≠ ["Parameter", "Type"] ∧
    writeParameterTables methodNoParams = [] :=
  ⟨by decide, by decide, by rfl⟩

/-- C6 (amended): when the parameter list is non-empty, the page contains a
Parameters table with header columns (Parameter, Type, Description) and one
two-cell row (name, type text) per parameter, in order; a method with a single
parameter `x: number` gets exactly the row `x | number`.  When the parameter
list is empty, the table (and its heading) is omitted. -/
theorem c6_parameters_table (item : ApiItem) :
    (writeParameterTables item = [] ↔ item.data.parameters = []) ∧
    (item.data.parameters ≠ [] →
      writeParameterTables item = [sectionHeading "Parameters",
        pushRows (table ["Parameter", "Type", "Description"])
          (item.data.parameters.map fun p => tr [.inl p.name, .inl p.parameterTypeText])]) ∧
    writeParameterTables methodWithParamX = [sectionHeading "Parameters",
      pushRows (table ["Parameter", "Type", "Description"])
        [tr [.inl "x", .inl "number"]]] := by
  refine ⟨?_, ?_, by rw [writeParameterTables_eq]; rfl⟩
  · rw [writeParameterTables_eq]
    cases hp : item.data.parameters <;> simp [hp]
  · intro hne
    rw [writeParameterTables_eq, if_neg (by simpa using hne)]

/-- Witness for `c6_parameters_table` at the one-parameter method. -/
theorem c6_parameters_table_witness :
    writeParameterTables methodWithParamX = [sectionHeading "Parameters",
      pushRows (table ["Parameter", "Type", "Description"])
        (methodWithParamX.data.parameters.map fun p => tr [.inl p.name, .inl p.parameterTypeText])] :=
  (c6_parameters_table methodWithParamX).2.1 (by decide)

/-! ### Claim C10 -/

/-- C10: for a non-static (or static-mixin-free) member the Modifiers cell,
and for a non-property item the Type cell, are built through the two-argument
`tag` overload: the intended class name lands in the `content` position,
producing a text node whose visible content is the literal `"modifiers"`
(resp. `"type"`) and which carries no `class` attribute. -/
theorem c10_modifiers_and_type_cells (item : ApiItem) :
    (item.data.isStatic = none ∨ item.data.isStatic = some false →
      createModifiersCell item = HtmlNode.text "div" [] "modifiers") ∧
    (item.data.propertyInfo = none →
      createPropertyTypeCell item = HtmlNode.text "code" [] "type") ∧
    tag "div" (some (.str "modifiers")) none = HtmlNode.text "div" [] "modifiers" ∧
    tag "code" (some (.str "type")) none = HtmlNode.text "code" [] "type" := by
  refine ⟨?_, ?_, rfl, rfl⟩
  · rintro (h | h) <;> simp [createModifiersCell, h, tag, tagCore, jsTruthyArg, asClassName]
  · intro h
    simp [createPropertyTypeCell, h, tag, tagCore, jsTruthyArg, asClassName]

/-- Witness for `c10_modifiers_and_type_cells` at a plain method item (no
static mixin, not a property item). -/
theorem c10_modifiers_and_type_cells_witness :
    createModifiersCell methodNoParams = HtmlNode.text "div" [] "modifiers" ∧
    createPropertyTypeCell methodNoParams = HtmlNode.text "code" [] "type" :=
  ⟨(c10_modifiers_and_type_cells methodNoParams).1 (Or.inl rfl),
   (c10_modifiers_and_type_cells methodNoParams).2.1 rfl⟩

/-! ### Claims C8 and C9: the doc-node renderer -/

theorem mapDocNodes_append (xs ys : List DocNode) :
    mapDocNodes (xs ++ ys) =
      match mapDocNodes xs, mapDocNodes ys with
      | .error e, _ => .error e
      | .ok _, .error e => .error e
      | .ok (os1, w1), .ok (os2, w2) => .ok (os1 ++ os2, w1 ++ w2) := by
  induction xs with
  | nil =>
    rcases hy : mapDocNodes ys with e | ⟨os2, w2⟩ <;> simp [mapDocNodes, hy]
  | cons n xs ih =>
    rw [List.cons_append, mapDocNodes, mapDocNodes]
    rcases hn : renderDocNode n with e | ⟨o, w⟩
    · rfl
    · rw [ih]
      rcases hx : mapDocNodes xs with e | ⟨os1, w1⟩ <;>
        rcases hy : mapDocNodes ys with e2 | ⟨os2, w2⟩ <;> simp

/-- C9: the renderer drops `SoftBreak` nodes entirely — deleting a `SoftBreak`
anywhere in the input sequence leaves the rendering unchanged — and it is
order-preserving: a `PlainText`/`SoftBreak`/`PlainText` sequence renders to
exactly the two `span` nodes, in order, not three nodes. -/
theorem c9_softbreak_dropped :
    (∀ xs ys : List DocNode,
      createDocNodes (xs ++ DocNode.SoftBreak :: ys) = createDocNodes (xs ++ ys)) ∧
    createDocNodes [DocNode.PlainText "a", DocNode.SoftBreak, DocNode.PlainText "b"] =
      .ok ([HtmlNode.text "span" [] "a", HtmlNode.text "span" [] "b"], []) := by
  constructor
  · intro xs ys
    rw [createDocNodes, createDocNodes, mapDocNodes_append, mapDocNodes_append]
    have hsb : mapDocNodes (DocNode.SoftBreak :: ys) =
        match mapDocNodes ys with
        | .error e => .error e
        | .ok (os, w) => .ok (none :: os, w) := by
      rw [mapDocNodes]
      rcases hy : mapDocNodes ys with e | ⟨os, w⟩ <;> simp [renderDocNode, hy]
    rw [hsb]
    rcases hx : mapDocNodes xs with e | ⟨os1, w1⟩ <;>
      rcases hy : mapDocNodes ys with e2 | ⟨os2, w2⟩ <;>
      simp [List.filterMap_append]
  · simp [createDocNodes, mapDocNodes, renderDocNode, tag, tagCore, jsTruthyArg, asClassName]

/-- C8: a `LinkTag` with only a code destination is recoverable: it logs the
warning, renders as a fallback anchor with href `"missing-link"` whose text is
the explicit link text (when non-empty) or the literal `"Missing Link"`, and
the remaining nodes are still rendered. -/
theorem c8_code_destination_link_fallback (linkText : Option String) (rest : List DocNode)
    (hs : List HtmlNode) (ws : List String)
    (hrest : createDocNodes rest = .ok (hs, ws)) :
    createDocNodes (DocNode.LinkTag linkText none :: rest) =
      .ok (a (jsOrString linkText "Missing Link") "missing-link" none :: hs,
        "DocLinkTag with codeDestination not supported" :: ws) ∧
    (∀ t : String, t ≠ "" → jsOrString (some t) "Missing Link" = t) ∧
    jsOrString none "Missing Link" = "Missing Link" := by
  refine ⟨?_, ?_, rfl⟩
  · rcases hmap : mapDocNodes rest with e | ⟨os, ws'⟩
    · rw [createDocNodes, hmap] at hrest
      simp at hrest
    · rw [createDocNodes, hmap] at hrest
      simp only [Except.ok.injEq, Prod.mk.injEq] at hrest
      obtain ⟨hos, hws⟩ := hrest
      rw [createDocNodes, mapDocNodes, renderDocNode]
      simp [jsTruthyStr, hmap, hos, hws]
  · intro t ht
    simp [jsOrString, ht]

/-- Witness for `c8_code_destination_link_fallback`: a code-destination link
with explicit text `Widget` followed by a plain-text node. -/
theorem c8_code_destination_link_fallback_witness :
    createDocNodes [DocNode.LinkTag (some "Widget") none, DocNode.PlainText "x"] =
      .ok ([a "Widget" "missing-link" none, HtmlNode.text "span" [] "x"],
        ["DocLinkTag with codeDestination not supported"]) := by
  have h := (c8_code_destination_link_fallback (some "Widget") [DocNode.PlainText "x"]
    [HtmlNode.text "span" [] "x"] []
    (by simp [createDocNodes, mapDocNodes, renderDocNode, tag, tagCore, jsTruthyArg,
      asClassName])).1
  simpa [jsOrString] using h

/-! ### Claim C5 -/

theorem mem_table_section {x tbl : HtmlNode} {name : String} {c : Prop} [Decidable c]
    (hx : x ∈ (if c then [sectionHeading name, tbl] else [])) :
    x = sectionHeading name ∨ x = tbl := by
  split at hx
  · simpa using hx
  · simp at hx

theorem classMemberRows_no_constructor (apiModel : ApiItem) (anc' : List ApiItem)
    (ms : List ApiItem) :
    ∀ r : ClassRows, (∀ m ∈ ms, m.kind ≠ .Constructor) →
      classMemberRows apiModel anc' ms = .ok r → r.constructors = [] := by
  induction ms with
  | nil =>
    intro r _ hok
    rw [classMemberRows] at hok
    simp only [Except.ok.injEq] at hok
    rw [← hok]
  | cons m ms ih =>
    intro r hms hok
    have hm := hms m (.head _)
    have hrest : ∀ x ∈ ms, x.kind ≠ .Constructor := fun x hx => hms x (.tail _ hx)
    rw [classMemberRows] at hok
    cases hk : m.kind
    case Constructor => exact absurd hk hm
    case Method =>
      simp only [hk] at hok
      rcases hdesc : createDescriptionCell m with e | d <;> simp only [hdesc] at hok
      · exact absurd hok (by simp)
      rcases hpg : writeApiItemPage apiModel anc' m with e | pgs <;> simp only [hpg] at hok
      · exact absurd hok (by simp)
      rcases hrec : classMemberRows apiModel anc' ms with e | r' <;> simp only [hrec] at hok
      · exact absurd hok (by simp)
      simp only [Except.ok.injEq] at hok
      have hc := ih r' hrest hrec
      rw [← hok]
      simpa using hc
    case Property =>
      simp only [hk] at hok
      rcases hdesc : createDescriptionCell m with e | d <;> simp only [hdesc] at hok
      · exact absurd hok (by simp)
      rcases hpg : writeApiItemPage apiModel anc' m with e | pgs <;> simp only [hpg] at hok
      · exact absurd hok (by simp)
      rcases hrec : classMemberRows apiModel anc' ms with e | r' <;> simp only [hrec] at hok
      · exact absurd hok (by simp)
      have hc := ih r' hrest hrec
      split at hok
      · simp only [Except.ok.injEq] at hok
        rw [← hok]
        simpa using hc
      · simp only [Except.ok.injEq] at hok
        rw [← hok]
        simpa using hc
    all_goals
      simp only [hk] at hok
      exact ih r hrest hok

/-- C5 (amended): every member table of a class page except the Events table
is omitted when it has no data rows — in particular a class with zero
constructors gets neither a "Constructors" heading nor a table whose header
cells read (Constructor, Modifiers, Description).  The class Events table uses
`content.length > 0` as its threshold while the header row is part of the
content, so the Events section (heading plus table) is emitted on every class
page, even with only its header row. -/
theorem c5_table_omission (apiModel : ApiItem) (anc : List ApiItem) (cls : ApiItem)
    (out : List HtmlNode) (pgs : List Page)
    (hok : writeClassTables apiModel anc cls = .ok (out, pgs)) :
    ((∀ m ∈ cls.members, m.kind ≠ .Constructor) →
      sectionHeading "Constructors" ∉ out ∧
      ∀ t ∈ out, columnHeadings t ≠ ["Constructor", "Modifiers", "Description"]) ∧
    sectionHeading "Events" ∈ out := by
  rcases hrows : classMemberRows apiModel (anc ++ [cls]) cls.members with e | r <;>
    rw [writeClassTables, hrows] at hok
  · simp at hok
  simp only [Except.ok.injEq, Prod.mk.injEq] at hok
  obtain ⟨hout, -⟩ := hok
  constructor
  · intro hnoc
    have hctor : r.constructors = [] :=
      classMemberRows_no_constructor apiModel (anc ++ [cls]) cls.members r hnoc hrows
    rw [hctor] at hout
    have hcsec : (if (pushRows (table ["Constructor", "Modifiers", "Description"])
        []).contentLength > 1 then
          [sectionHeading "Constructors",
            pushRows (table ["Constructor", "Modifiers", "Description"]) []]
        else []) = ([] : List HtmlNode) := by
      rw [if_neg]
      simp [pushRows, table, tag, tagCore, jsTruthyArg, asClassName, HtmlNode.contentLength]
    rw [hcsec] at hout
    constructor
    · intro hmem
      rw [← hout] at hmem
      simp only [List.append_nil, List.nil_append, List.mem_append] at hmem
      rcases hmem with (hmem | hmem) | hmem <;>
        rcases mem_table_section hmem with h | h <;>
        simp [sectionHeading, pushRows, table, tag, tagCore, jsTruthyArg, asClassName] at h
    · intro t hmem
      rw [← hout] at hmem
      simp only [List.append_nil, List.nil_append, List.mem_append] at hmem
      rcases hmem with (hmem | hmem) | hmem <;>
        rcases mem_table_section hmem with h | h <;>
        subst h <;>
        simp [sectionHeading, columnHeadings, pushRows, table, tag, tagCore, jsTruthyArg,
          asClassName]
  · rw [← hout]
    have hev : (pushRows (table ["Property", "Modifiers", "Type", "Description"])
        r.events).contentLength > 0 := by
      simp [pushRows, table, tag, tagCore, jsTruthyArg, asClassName, HtmlNode.contentLength]
    refine List.mem_append.mpr (Or.inl (List.mem_append.mpr (Or.inl
      (List.mem_append.mpr (Or.inl ?_)))))
    rw [if_pos hev]
    exact .head _

/-- Witness for `c5_table_omission`: a class `Widget` with a single
non-constructor member (a method) — its table output has no Constructors
section but does contain the header-only Events section. -/
theorem c5_table_omission_witness :
    sectionHeading "Constructors" ∉
      [sectionHeading "Events", table ["Property", "Modifiers", "Type", "Description"]] ∧
    sectionHeading "Events" ∈
      [sectionHeading "Events", table ["Property", "Modifiers", "Type", "Description"]] := by
  have h := c5_table_omission modelItem [] clsWidgetPlain
    [sectionHeading "Events", table ["Property", "Modifiers", "Type", "Description"]] []
    (by simp [writeClassTables, classMemberRows, pushRows, table, tag, tagCore, jsTruthyArg,
      asClassName, HtmlNode.contentLength, sectionHeading, ApiItem.members, clsWidgetPlain])
  exact ⟨(h.1 (by decide)).1, h.2⟩

/-- C5 (counterexample): for a class with no members at all, the emitted
output still contains the Events section although its table has only the
header row (`contentLength = 1`, i.e. no data rows) — contradicting the claim
that every table with only its header row is omitted from the output. -/
theorem c5_header_only_events_emitted :
    writeClassTables modelItem [] clsWidgetPlain =
      .ok ([sectionHeading "Events", table ["Property", "Modifiers", "Type", "Description"]],
        []) ∧
    (table ["Property", "Modifiers", "Type", "Description"]).contentLength = 1 := by
  constructor
  · simp [writeClassTables, classMemberRows, pushRows, table, tag, tagCore, jsTruthyArg,
      asClassName, HtmlNode.contentLength, sectionHeading, ApiItem.members, clsWidgetPlain]
  · simp [table, tag, tagCore, jsTruthyArg, asClassName, HtmlNode.contentLength]

/-! ### Claim C7 -/

/-- The `DocNode` kinds with no rendering rule in `_createDocNodes`. -/
def DocNode.isUnsupportedKind : DocNode → Bool
  | .ErrorText _ | .InlineTag _ | .BlockTag _ => true
  | _ => false

/-- An enum member (a kind with no heading or body branch in
`_writeApiItemPage`). -/
def enumMemberItem : ApiItem := .mk { kind := .EnumMember, displayName := "Red" } []

/-- A method whose doc comment summary contains a doc node of an unsupported
kind. -/
def badDocMethod : ApiItem :=
  .mk { kind := .Method, displayName := "m",
        tsdocComment := some { summary := [DocNode.ErrorText "?"] } } []

/-- A class containing `badDocMethod`. -/
def clsWithBadDoc : ApiItem := .mk { kind := .Class, displayName := "C" } [badDocMethod]

/-- C7: an item whose kind has no heading/body branch (`EntryPoint`,
`EnumMember`, `CallSignature`, `IndexSignature`, `None`) makes
`_writeApiItemPage` throw — no page list is produced, so the run aborts
instead of skipping the item; likewise a doc node of a kind with no rendering
rule makes the renderer throw at once, regardless of the remaining nodes. -/
theorem c7_unsupported_kind_fatal :
    (∀ (apiModel : ApiItem) (anc : List ApiItem) (item : ApiItem),
      (item.kind = .EntryPoint ∨ item.kind = .EnumMember ∨ item.kind = .CallSignature ∨
        item.kind = .IndexSignature ∨ item.kind = .None) →
      writeApiItemPage apiModel anc item =
        .error ("Unsupported API item kind: " ++ item.kind.toStringValue)) ∧
    (∀ (n : DocNode) (ns : List DocNode), n.isUnsupportedKind = true →
      createDocNodes (n :: ns) = .error ("Unsupported DocNode kind: " ++ n.kindStr)) ∧
    writeApiItemPage modelItem [modelItem, pkgItem, epItem] clsWithBadDoc =
      .error "Unsupported DocNode kind: ErrorText" := by
  refine ⟨?_, ?_, by
    simp [writeApiItemPage, writeClassTables, classMemberRows, clsWithBadDoc, badDocMethod,
      ApiItem.members, ApiItem.kind, ApiItem.data, headingForApiItem, summarySection,
      writeRemarksSection, signatureSection, createDescriptionCell, createDocNodes,
      mapDocNodes, renderDocNode, DocNode.kindStr]⟩
  · intro apiModel anc item hk
    rcases hk with h | h | h | h | h <;>
      simp [writeApiItemPage, headingForApiItem, h, ApiItemKind.toStringValue]
  · intro n ns hn
    cases n <;> simp_all [DocNode.isUnsupportedKind, createDocNodes, mapDocNodes,
      renderDocNode, DocNode.kindStr]

/-- Witness for `c7_unsupported_kind_fatal`: an `EnumMember` page request and
an `ErrorText` doc node both abort with the unsupported-kind errors. -/
theorem c7_unsupported_kind_fatal_witness :
    writeApiItemPage modelItem [] enumMemberItem =
      .error ("Unsupported API item kind: " ++ enumMemberItem.kind.toStringValue) ∧
    createDocNodes [DocNode.ErrorText "!"] =
      .error ("Unsupported DocNode kind: " ++ (DocNode.ErrorText "!").kindStr) :=
  ⟨c7_unsupported_kind_fatal.1 modelItem [] enumMemberItem (by decide),
   c7_unsupported_kind_fatal.2.1 (DocNode.ErrorText "!") [] rfl⟩

end ApiDoc
